import Mathlib

/-!
Verification of the go-remedy client (tphakala/go-remedy).

Shallow embedding of the parts of the code the specification talks about:

* `Queue` — the request-serialization gate (`internal/queue/queue.go`):
  a buffered channel of capacity 1 (`sem`), a `closed` channel, and an
  idempotent `Close`.  The channel operations are modelled atomically as a
  step relation on the queue state.
* `Limiter` — the token-bucket rate limiter (`internal/ratelimit/ratelimit.go`),
  with real-valued quantities modelled over `ℚ`.
* `SessionState` / `ensureValidToken` / `loginInternal` — the token-management
  slice of `client.go` and the auth file, with HTTP interactions supplied as
  explicit outcome parameters.
* `acquireAndRateLimit` — the guarded pipeline entry of `client.go`.
* A small interleaving semantics for the double-checked refresh pattern of
  `ensureValidToken`, used to prove the exactly-once refresh property.
-/

namespace Remedy

/-! ## The serialization gate (`internal/queue/queue.go`) -/

/-- State of a `Queue`: `semCount` is the number of values buffered in the
capacity-1 channel `sem` (so `1` means the gate is held), `closed` records
whether the `closed` channel has been closed. -/
structure Queue where
  semCount : Nat
  closed : Bool
  deriving DecidableEq, Repr

namespace Queue

/-- `queue.New()`: empty semaphore, open queue. -/
def new : Queue := ⟨0, false⟩

/-- Result of an `Acquire` call. -/
inductive AcquireResult where
  | ok
  | ctxErr
  | closedErr
  deriving DecidableEq, Repr

/-- Atomic semantics of `Queue.Acquire`.  `ctxCancelled` models `ctx.Err() ≠ nil`.
The code checks the context first, then does a non-blocking closed check, and
only then tries to win the semaphore slot; sending on the capacity-1 channel
succeeds exactly when the buffer is empty.  `none` means the call blocks. -/
def acquire (q : Queue) (ctxCancelled : Bool) : Option (AcquireResult × Queue) :=
  if ctxCancelled then some (.ctxErr, q)
  else if q.closed then some (.closedErr, q)
  else if q.semCount = 0 then some (.ok, { q with semCount := 1 })
  else none

/-- Atomic semantics of `Queue.Release`: receives from `sem` when non-empty,
panics (modelled as `none`) otherwise. -/
def release (q : Queue) : Option Queue :=
  if q.semCount = 0 then none else some { q with semCount := q.semCount - 1 }

/-- Atomic semantics of `Queue.Close`: `closeOnce` closes the `closed` channel
the first time and does nothing afterwards, so the state update is simply
setting the flag. -/
def close (q : Queue) : Queue := { q with closed := true }

/-- One step of the queue's history: a successful `Acquire`, a `Release` by a
holder, a `Close`, or an `Acquire` that returns an error (which leaves the
state unchanged). -/
inductive Step : Queue → Queue → Prop where
  | acquireOk (q q' : Queue) (c : Bool) : acquire q c = some (.ok, q') → Step q q'
  | acquireErr (q q' : Queue) (c : Bool) (r : AcquireResult) :
      acquire q c = some (r, q') → r ≠ .ok → Step q q'
  | release (q q' : Queue) : release q = some q' → Step q q'
  | close (q : Queue) : Step q (close q)

/-- Reachability from the freshly constructed queue. -/
inductive Reachable : Queue → Prop where
  | init : Reachable new
  | step (q q' : Queue) : Reachable q → Step q q' → Reachable q'

theorem semCount_le_one_of_step {q q' : Queue} (h : Step q q')
    (hq : q.semCount ≤ 1) : q'.semCount ≤ 1 := by
  cases h with
  | acquireOk q2 c hacq =>
    unfold acquire at hacq
    split at hacq
    · simp_all
    · split at hacq
      · simp_all
      · split at hacq
        · simp only [Option.some.injEq, Prod.mk.injEq] at hacq
          rw [← hacq.2]
        · simp_all
  | acquireErr q2 c r hacq hr =>
    unfold acquire at hacq
    split at hacq
    · simp only [Option.some.injEq, Prod.mk.injEq] at hacq
      rw [← hacq.2]; exact hq
    · split at hacq
      · simp only [Option.some.injEq, Prod.mk.injEq] at hacq
        rw [← hacq.2]; exact hq
      · split at hacq
        · simp only [Option.some.injEq, Prod.mk.injEq] at hacq
          exact absurd hacq.1.symm hr
        · simp_all
  | release q2 hrel =>
    unfold release at hrel
    split at hrel
    · simp_all
    · simp only [Option.some.injEq] at hrel
      rw [← hrel]
      exact le_trans (Nat.sub_le _ _) hq
  | close => exact hq

/-- The semaphore never holds more than one value in any reachable state. -/
theorem semCount_le_one_of_reachable {q : Queue} (h : Reachable q) :
    q.semCount ≤ 1 := by
  induction h with
  | init => decide
  | step q q' _ hstep ih => exact semCount_le_one_of_step hstep ih

theorem acquire_ok_iff {q q' : Queue} {c : Bool} :
    acquire q c = some (.ok, q') ↔
      c = false ∧ q.closed = false ∧ q.semCount = 0 ∧ q' = { q with semCount := 1 } := by
  unfold acquire
  constructor
  · intro h
    split at h
    · simp_all
    · split at h
      · simp_all
      · split at h
        · simp only [Option.some.injEq, Prod.mk.injEq] at h
          refine ⟨by simp_all, by simp_all, by assumption, h.2.symm⟩
        · simp_all
  · rintro ⟨hc, hcl, hs, hq'⟩
    subst hc; subst hq'
    simp [hcl, hs]

/-- An `Acquire` that returns an error leaves the queue state unchanged. -/
theorem acquire_err_eq {q q' : Queue} {c : Bool} {r : AcquireResult}
    (h : acquire q c = some (r, q')) (hr : r ≠ .ok) : q' = q := by
  unfold acquire at h
  split at h
  · simp only [Option.some.injEq, Prod.mk.injEq] at h
    exact h.2.symm
  · split at h
    · simp only [Option.some.injEq, Prod.mk.injEq] at h
      exact h.2.symm
    · split at h
      · simp only [Option.some.injEq, Prod.mk.injEq] at h
        exact absurd h.1.symm hr
      · simp_all

end Queue

/-- C1: for every reachable state of the serialization gate, at most one caller
holds the gate (`semCount ≤ 1`); a successful `Acquire` transitions the slot
from free (`semCount = 0`) to held (`semCount = 1`); and from a held state no
`Acquire` can succeed until the holder releases. -/
theorem gate_mutual_exclusion (q q' : Queue) (c : Bool)
    (hreach : Queue.Reachable q) :
    q.semCount ≤ 1 ∧
    (Queue.acquire q c = some (.ok, q') → q.semCount = 0 ∧ q'.semCount = 1) ∧
    (q.semCount = 1 → Queue.acquire q c ≠ some (.ok, q')) := by
  refine ⟨Queue.semCount_le_one_of_reachable hreach, ?_, ?_⟩
  · intro h
    rcases Queue.acquire_ok_iff.mp h with ⟨_, _, hs, hq'⟩
    exact ⟨hs, by rw [hq']⟩
  · intro hheld h
    rcases Queue.acquire_ok_iff.mp h with ⟨_, _, hs, _⟩
    omega

/-- Witness for `gate_mutual_exclusion`: the state reached by one successful
`Acquire` from a fresh queue. -/
theorem gate_mutual_exclusion_witness :
    (⟨1, false⟩ : Queue).semCount ≤ 1 ∧
    ((⟨1, false⟩ : Queue).semCount = 1 →
      Queue.acquire ⟨1, false⟩ false ≠ some (.ok, ⟨1, false⟩)) := by
  have h := gate_mutual_exclusion ⟨1, false⟩ ⟨1, false⟩ false
    (Queue.Reachable.step Queue.new ⟨1, false⟩ Queue.Reachable.init
      (Queue.Step.acquireOk Queue.new ⟨1, false⟩ false (by decide)))
  exact ⟨h.1, h.2.2⟩

/-- C9: `Close` is idempotent and leaves the gate closed; the `closed` flag is
monotone along every step (it never reverts to `false`); and once closed, an
`Acquire` with a live context fails with the closed error while no `Acquire`
whatsoever can succeed. -/
theorem close_idempotent_and_final (q q' q2 : Queue) (c : Bool)
    (hstep : Queue.Step q q') :
    Queue.close (Queue.close q) = Queue.close q ∧
    (Queue.close q).closed = true ∧
    (q.closed = true → q'.closed = true) ∧
    (q.closed = true → Queue.acquire q false = some (.closedErr, q)) ∧
    (q.closed = true → Queue.acquire q c ≠ some (.ok, q2)) := by
  refine ⟨rfl, rfl, ?_, ?_, ?_⟩
  · intro hcl
    cases hstep with
    | acquireOk q3 c2 hacq =>
      rcases Queue.acquire_ok_iff.mp hacq with ⟨_, hq, _, _⟩
      rw [hcl] at hq; exact absurd hq (by simp)
    | acquireErr q3 c2 r hacq hr =>
      rw [Queue.acquire_err_eq hacq hr]; exact hcl
    | release q3 hrel =>
      unfold Queue.release at hrel
      split at hrel
      · simp_all
      · simp only [Option.some.injEq] at hrel
        rw [← hrel]; exact hcl
    | close => rfl
  · intro hcl
    unfold Queue.acquire
    simp [hcl]
  · intro hcl h
    rcases Queue.acquire_ok_iff.mp h with ⟨_, hq, _, _⟩
    rw [hcl] at hq; exact absurd hq (by simp)

/-- Witness for `close_idempotent_and_final`: a closed queue, stepped by a
(no-op) further `Close`. -/
theorem close_idempotent_and_final_witness :
    Queue.acquire ⟨0, true⟩ false = some (.closedErr, ⟨0, true⟩) := by
  have h := close_idempotent_and_final ⟨0, true⟩ (Queue.close ⟨0, true⟩) ⟨1, true⟩ false
    (Queue.Step.close ⟨0, true⟩)
  exact h.2.2.2.1 rfl

/-! ## The token-bucket rate limiter (`internal/ratelimit/ratelimit.go`)

The Go code works with `float64` and `time.Time`; the real-valued quantities
are modelled over `ℚ`, with times given in seconds.  `Wait` converts the
computed `seconds` value to a `time.Duration` before sleeping; the model keeps
the wait in seconds (the value of the `seconds` variable). -/

/-- State of a `Limiter`. -/
structure Limiter where
  tokens : ℚ
  maxTokens : ℚ
  refillRate : ℚ
  lastRefill : ℚ
  deriving DecidableEq, Repr

namespace Limiter

/-- `ratelimit.New(requestsPerSecond)` called at time `now`. -/
def new (requestsPerSecond : ℚ) (now : ℚ) : Limiter :=
  { tokens := requestsPerSecond
    maxTokens := requestsPerSecond
    refillRate := requestsPerSecond
    lastRefill := now }

/-- `Limiter.refill` at time `now`: add `elapsed × refillRate` tokens and cap
at `maxTokens`. -/
def refill (l : Limiter) (now : ℚ) : Limiter :=
  let elapsed := now - l.lastRefill
  let t := l.tokens + elapsed * l.refillRate
  { l with lastRefill := now, tokens := if t > l.maxTokens then l.maxTokens else t }

/-- `Limiter.Allow` at time `now`: refill, then consume one token when at
least one is available. -/
def allow (l : Limiter) (now : ℚ) : Bool × Limiter :=
  let l2 := l.refill now
  if l2.tokens ≥ 1 then (true, { l2 with tokens := l2.tokens - 1 })
  else (false, l2)

/-- `Limiter.tryAcquireOrGetWaitTime` at time `now`: refill, consume a token
when available (zero wait), otherwise report the wait in seconds for the next
token.  This is the whole critical section of each `Wait` iteration. -/
def tryAcquireOrGetWaitTime (l : Limiter) (now : ℚ) : ℚ × Limiter :=
  let l2 := l.refill now
  if l2.tokens ≥ 1 then (0, { l2 with tokens := l2.tokens - 1 })
  else ((1 - l2.tokens) / l.refillRate, l2)

theorem refill_tokens_eq (l : Limiter) (now : ℚ) :
    (l.refill now).tokens = min l.maxTokens (l.tokens + (now - l.lastRefill) * l.refillRate) := by
  unfold refill
  rcases le_or_lt (l.tokens + (now - l.lastRefill) * l.refillRate) l.maxTokens with h | h
  · simp [not_lt.mpr h, min_eq_right h]
  · simp [h, min_eq_left h.le]

theorem refill_maxTokens (l : Limiter) (now : ℚ) :
    (l.refill now).maxTokens = l.maxTokens := rfl

theorem refill_lastRefill (l : Limiter) (now : ℚ) :
    (l.refill now).lastRefill = now := rfl

theorem refill_refillRate (l : Limiter) (now : ℚ) :
    (l.refill now).refillRate = l.refillRate := rfl

end Limiter

/-- C7: every token-bucket access first refills with
`tokens = min(maxTokens, tokens + elapsed × refillRate)` where
`elapsed = now − lastRefill`, and sets `lastRefill = now`; then, inside the
same critical section, it either consumes one token with zero wait (when
`tokens ≥ 1`) or computes the wait `(1 − tokens) / refillRate` seconds and
consumes nothing. -/
theorem bucket_refill_and_wait (l : Limiter) (now : ℚ) :
    (l.refill now).tokens
      = min l.maxTokens (l.tokens + (now - l.lastRefill) * l.refillRate) ∧
    (l.refill now).lastRefill = now ∧
    ((l.refill now).tokens ≥ 1 →
      (l.tryAcquireOrGetWaitTime now).1 = 0 ∧
      (l.tryAcquireOrGetWaitTime now).2.tokens = (l.refill now).tokens - 1) ∧
    ((l.refill now).tokens < 1 →
      (l.tryAcquireOrGetWaitTime now).1 = (1 - (l.refill now).tokens) / l.refillRate ∧
      (l.tryAcquireOrGetWaitTime now).2 = l.refill now) := by
  refine ⟨Limiter.refill_tokens_eq l now, rfl, ?_, ?_⟩
  · intro h
    unfold Limiter.tryAcquireOrGetWaitTime
    simp [h]
  · intro h
    unfold Limiter.tryAcquireOrGetWaitTime
    simp [not_le.mpr h]

/-- Witness for `bucket_refill_and_wait`: a full bucket consumes with zero
wait; an empty bucket is told to wait `1/5` of a second at rate 5. -/
theorem bucket_refill_and_wait_witness :
    (Limiter.tryAcquireOrGetWaitTime ⟨5, 5, 5, 0⟩ 0).1 = 0 ∧
    (Limiter.tryAcquireOrGetWaitTime ⟨0, 5, 5, 0⟩ 0).1 = (1 - 0) / 5 := by
  constructor
  · exact (bucket_refill_and_wait ⟨5, 5, 5, 0⟩ 0).2.2.1 (by norm_num [Limiter.refill]) |>.1
  · have h := (bucket_refill_and_wait ⟨0, 5, 5, 0⟩ 0).2.2.2 (by norm_num [Limiter.refill])
    have h2 : (Limiter.refill ⟨0, 5, 5, 0⟩ 0).tokens = 0 := by norm_num [Limiter.refill]
    rw [h.1, h2]

/-- C8: at construction the bucket satisfies
`tokens = maxTokens = refillRate` (full, with burst capacity equal to the
steady-state rate); and whenever `0 ≤ tokens ≤ maxTokens`, the refill rate is
nonnegative and time has not gone backwards, the invariant
`0 ≤ tokens ≤ maxTokens` still holds after `refill`, after `Allow`, and after
a `Wait` iteration (`tryAcquireOrGetWaitTime`). -/
theorem bucket_invariant (rps t0 now : ℚ) (l : Limiter)
    (h0 : 0 ≤ l.tokens) (h1 : l.tokens ≤ l.maxTokens)
    (h2 : 0 ≤ l.refillRate) (h3 : l.lastRefill ≤ now) :
    ((Limiter.new rps t0).tokens = (Limiter.new rps t0).maxTokens ∧
     (Limiter.new rps t0).maxTokens = (Limiter.new rps t0).refillRate) ∧
    (0 ≤ (l.refill now).tokens ∧ (l.refill now).tokens ≤ (l.refill now).maxTokens) ∧
    (0 ≤ (l.allow now).2.tokens ∧ (l.allow now).2.tokens ≤ (l.allow now).2.maxTokens) ∧
    (0 ≤ (l.tryAcquireOrGetWaitTime now).2.tokens ∧
     (l.tryAcquireOrGetWaitTime now).2.tokens ≤ (l.tryAcquireOrGetWaitTime now).2.maxTokens) := by
  have hrefl : 0 ≤ (l.refill now).tokens := by
    rw [Limiter.refill_tokens_eq]
    have : 0 ≤ (now - l.lastRefill) * l.refillRate :=
      mul_nonneg (sub_nonneg.mpr h3) h2
    exact le_min (le_trans h0 h1) (by linarith)
  have hrefu : (l.refill now).tokens ≤ l.maxTokens := by
    rw [Limiter.refill_tokens_eq]; exact min_le_left _ _
  refine ⟨⟨rfl, rfl⟩, ⟨hrefl, by rw [Limiter.refill_maxTokens]; exact hrefu⟩, ?_, ?_⟩
  · unfold Limiter.allow
    rcases le_or_lt 1 (l.refill now).tokens with h | h
    · simp only [ge_iff_le, h, if_true]
      refine ⟨by linarith, ?_⟩
      simp only [Limiter.refill_maxTokens]
      linarith
    · simp only [ge_iff_le, not_le.mpr h, if_false]
      exact ⟨hrefl, by rw [Limiter.refill_maxTokens]; exact hrefu⟩
  · unfold Limiter.tryAcquireOrGetWaitTime
    rcases le_or_lt 1 (l.refill now).tokens with h | h
    · simp only [ge_iff_le, h, if_true]
      refine ⟨by linarith, ?_⟩
      simp only [Limiter.refill_maxTokens]
      linarith
    · simp only [ge_iff_le, not_le.mpr h, if_false]
      exact ⟨hrefl, by rw [Limiter.refill_maxTokens]; exact hrefu⟩

/-- Witness for `bucket_invariant`: a half-full bucket at rate 5, accessed one
second after its last refill. -/
theorem bucket_invariant_witness :
    (Limiter.new 5 0).tokens = (Limiter.new 5 0).maxTokens ∧
    0 ≤ (Limiter.allow ⟨2, 5, 5, 0⟩ 1).2.tokens := by
  have h := bucket_invariant 5 0 1 ⟨2, 5, 5, 0⟩
    (by norm_num) (by norm_num) (by norm_num) (by norm_num)
  exact ⟨h.1.1, h.2.2.1.1⟩

/-! ## Token management (`client.go` and the auth file)

Times are integers (for instance nanoseconds); `time.Time.After` is strict
`>`.  The HTTP interaction of `loginInternal` is supplied as an explicit
`LoginResponse` outcome. -/

/-- Stored credentials for automatic token refresh. -/
structure Credentials where
  username : String
  password : String
  authString : String
  deriving DecidableEq, Repr

/-- The token-management slice of `Client`: the token and its expiry, the
refresh configuration, and the stored credentials. -/
structure SessionState where
  token : String
  tokenExpiry : ℤ
  refreshThreshold : ℤ
  tokenLifetime : ℤ
  autoRefresh : Bool
  credentials : Option Credentials
  deriving DecidableEq, Repr

/-- `maxTokenSize` from the auth file: 64 KiB. -/
def maxTokenSize : Nat := 64 * 1024

/-- `strings.TrimSpace`: drop whitespace from both ends of the string. -/
def trimSpace (s : String) : String :=
  String.mk (((s.data.dropWhile Char.isWhitespace).reverse.dropWhile Char.isWhitespace).reverse)

/-- Outcome of the login HTTP exchange, as seen by `loginInternal`:
either the request/transport failed (`netErr`), or a response arrived with a
status code and a body read that may itself fail. -/
inductive LoginResponse where
  | netErr
  | httpResp (status : Nat) (body : Except Unit String)
  deriving Repr

/-- Result of `loginInternal`. -/
inductive LoginResult where
  | ok
  | reqError
  | apiError (status : Nat)
  | readError
  | tokenTooLarge
  deriving DecidableEq, Repr

/-- `Client.tokenNeedsRefreshLocked`: the token needs refresh when it is empty
or `time.Now().Add(refreshThreshold).After(tokenExpiry)`. -/
def tokenNeedsRefreshLocked (s : SessionState) (now : ℤ) : Bool :=
  if s.token = "" then true
  else decide (now + s.refreshThreshold > s.tokenExpiry)

/-- `Client.loginInternal`: non-200 statuses become API errors; the body is
read (up to `maxTokenSize+1` bytes) and rejected when longer than
`maxTokenSize`; on success the trimmed body and `now + tokenLifetime` are
installed via `setTokenWithExpiry`. -/
def loginInternal (s : SessionState) (resp : LoginResponse) (now : ℤ) :
    LoginResult × SessionState :=
  match resp with
  | .netErr => (.reqError, s)
  | .httpResp status body =>
    if status ≠ 200 then (.apiError status, s)
    else
      match body with
      | .error _ => (.readError, s)
      | .ok b =>
        if b.length > maxTokenSize then (.tokenTooLarge, s)
        else (.ok, { s with token := trimSpace b, tokenExpiry := now + s.tokenLifetime })

/-- Result of `ensureValidToken` / `refreshToken`. -/
inductive EnsureResult where
  | ok
  | noCredentials
  | loginFailed (e : LoginResult)
  deriving DecidableEq, Repr

/-- `Client.refreshToken`: fails with `ErrNoCredentials` when no credentials
are stored, otherwise performs a login with the stored credentials.  The third
component records whether the Authenticator (login request) was invoked. -/
def refreshToken (s : SessionState) (resp : LoginResponse) (now : ℤ) :
    EnsureResult × SessionState × Bool :=
  match s.credentials with
  | none => (.noCredentials, s, false)
  | some _ =>
    let r := loginInternal s resp now
    ((if r.1 = .ok then .ok else .loginFailed r.1), r.2, true)

/-- `Client.ensureValidToken`: fast-path check, auto-refresh gate, refresh
lock, double-check, then `refreshToken`.  In this sequential model both
checks read the same clock.  The third component records whether the
Authenticator was invoked. -/
def ensureValidToken (s : SessionState) (now : ℤ) (resp : LoginResponse) :
    EnsureResult × SessionState × Bool :=
  if ¬ tokenNeedsRefreshLocked s now then (.ok, s, false)
  else if ¬ s.autoRefresh then (.noCredentials, s, false)
  else if ¬ tokenNeedsRefreshLocked s now then (.ok, s, false)
  else refreshToken s resp now

/-- C4: the token is classified as needing refresh exactly when it is empty or
`now + refreshThreshold` is (strictly) after `tokenExpiry`; and when no
refresh is needed, `ensureValidToken` returns success immediately, leaving the
state untouched and never invoking the Authenticator. -/
theorem token_needs_refresh_iff (s : SessionState) (now : ℤ) (resp : LoginResponse) :
    (tokenNeedsRefreshLocked s now = true ↔
      (s.token = "" ∨ now + s.refreshThreshold > s.tokenExpiry)) ∧
    (tokenNeedsRefreshLocked s now = false →
      ensureValidToken s now resp = (.ok, s, false)) := by
  constructor
  · unfold tokenNeedsRefreshLocked
    split
    · simp_all
    · simp_all
  · intro h
    unfold ensureValidToken
    simp [h]

/-- Witness for `token_needs_refresh_iff`: a session whose token is valid for
100 more time units with a threshold of 10 needs no refresh at time 0. -/
theorem token_needs_refresh_iff_witness :
    ensureValidToken ⟨"tok", 100, 10, 1000, true, none⟩ 0 .netErr
      = (.ok, ⟨"tok", 100, 10, 1000, true, none⟩, false) :=
  (token_needs_refresh_iff ⟨"tok", 100, 10, 1000, true, none⟩ 0 .netErr).2 (by decide)

/-- C5: whenever the token needs refresh and auto-refresh is disabled or no
credential bundle is stored, `ensureValidToken` fails with the no-credentials
error, leaves the state untouched, and never invokes the Authenticator. -/
theorem no_credentials_failure (s : SessionState) (now : ℤ) (resp : LoginResponse)
    (hneed : tokenNeedsRefreshLocked s now = true)
    (hno : s.autoRefresh = false ∨ s.credentials = none) :
    ensureValidToken s now resp = (.noCredentials, s, false) := by
  unfold ensureValidToken
  rcases hno with h | h
  · simp [hneed, h]
  · simp only [hneed, not_true_eq_false, if_false, Bool.not_eq_true]
    split
    · rfl
    · unfold refreshToken
      rw [h]

/-- Witness for `no_credentials_failure`: an empty token with no stored
credentials fails with the no-credentials error. -/
theorem no_credentials_failure_witness :
    ensureValidToken ⟨"", 0, 10, 1000, true, none⟩ 0 .netErr
      = (.noCredentials, ⟨"", 0, 10, 1000, true, none⟩, false) :=
  no_credentials_failure ⟨"", 0, 10, 1000, true, none⟩ 0 .netErr (by decide) (Or.inr rfl)

/-- C6: a failed login attempt — transport error, bad HTTP status, unreadable
body, or oversized body — leaves the session state (in particular the stored
token and its expiry) exactly as it was, both in `loginInternal` and in
`refreshToken`; the new token/expiry pair is installed only when
`loginInternal` fully succeeds. -/
theorem refresh_failure_preserves_token (s : SessionState) (resp : LoginResponse) (now : ℤ) :
    ((loginInternal s resp now).1 ≠ .ok → (loginInternal s resp now).2 = s) ∧
    ((refreshToken s resp now).1 ≠ .ok → (refreshToken s resp now).2.1 = s) := by
  have hlogin : (loginInternal s resp now).1 ≠ .ok → (loginInternal s resp now).2 = s := by
    intro h
    unfold loginInternal at *
    match resp with
    | .netErr => rfl
    | .httpResp status body =>
      by_cases hs : status ≠ 200
      · simp [hs]
      · simp only [hs, if_false] at h ⊢
        match body with
        | .error e => rfl
        | .ok b =>
          by_cases hb : b.length > maxTokenSize
          · simp [hb]
          · simp [hb] at h
  constructor
  · exact hlogin
  · intro h
    unfold refreshToken at *
    match hc : s.credentials with
    | none => rfl
    | some creds =>
      simp only [hc] at h ⊢
      by_cases hok : (loginInternal s resp now).1 = .ok
      · simp [hok] at h
      · simpa using hlogin hok

/-- Witness for `refresh_failure_preserves_token`: a refresh against a server
answering HTTP 500 leaves the stored token in place. -/
theorem refresh_failure_preserves_token_witness :
    (refreshToken ⟨"old", 5, 10, 1000, true, some ⟨"u", "p", ""⟩⟩ (.httpResp 500 (.ok "x")) 0).2.1
      = ⟨"old", 5, 10, 1000, true, some ⟨"u", "p", ""⟩⟩ :=
  (refresh_failure_preserves_token ⟨"old", 5, 10, 1000, true, some ⟨"u", "p", ""⟩⟩
      (.httpResp 500 (.ok "x")) 0).2 (by simp [refreshToken, loginInternal])

/-- C10: a 200 login response whose body exceeds `maxTokenSize` (65536 bytes)
fails with the dedicated token-too-large error and leaves the stored token and
expiry unchanged; a body at or under the limit is accepted and stored with
surrounding whitespace trimmed, with expiry `now + tokenLifetime`. -/
theorem login_token_size_limit (s : SessionState) (b : String) (now : ℤ) :
    (b.length > maxTokenSize →
      loginInternal s (.httpResp 200 (.ok b)) now = (.tokenTooLarge, s)) ∧
    (b.length ≤ maxTokenSize →
      loginInternal s (.httpResp 200 (.ok b)) now
        = (.ok, { s with token := trimSpace b, tokenExpiry := now + s.tokenLifetime })) := by
  constructor
  · intro h
    unfold loginInternal
    simp [h]
  · intro h
    unfold loginInternal
    simp [not_lt.mpr h]

/-- Witness for `login_token_size_limit`: a 65537-byte body is rejected; the
body `" tok "` is accepted and stored trimmed to `"tok"`. -/
theorem login_token_size_limit_witness :
    (loginInternal ⟨"old", 5, 10, 1000, true, none⟩
        (.httpResp 200 (.ok (String.mk (List.replicate 65537 'a')))) 0).1 = .tokenTooLarge ∧
    (loginInternal ⟨"old", 5, 10, 1000, true, none⟩ (.httpResp 200 (.ok " tok ")) 0).2.token
      = "tok" := by
  constructor
  · have h := (login_token_size_limit ⟨"old", 5, 10, 1000, true, none⟩
        (String.mk (List.replicate 65537 'a')) 0).1
      (by show (List.replicate 65537 'a').length > maxTokenSize
          rw [List.length_replicate]; norm_num [maxTokenSize])
    rw [h]
  · have h := (login_token_size_limit ⟨"old", 5, 10, 1000, true, none⟩ " tok " 0).2
      (by decide)
    rw [h]
    decide

/-! ## The guarded pipeline entry (`Client.acquireAndRateLimit`) -/

/-- Result of `acquireAndRateLimit`. -/
inductive PipelineResult where
  | ok
  | tokenError (e : EnsureResult)
  | queueError (e : Queue.AcquireResult)
  | rateError
  deriving DecidableEq, Repr

/-- `Client.acquireAndRateLimit`: (1) `ensureValidToken` — its outcome is the
`ensure` parameter; (2) `queue.Acquire`; (3) `rateLimiter.Wait` when a limiter
is configured — `waitOk` tells whether the wait obtained a token or was
cancelled, and on failure the gate is released before the error propagates.
The `Nat` component counts consumed rate-limit tokens; `none` means the call
blocks inside `Acquire`. -/
def acquireAndRateLimit (gate : Queue) (ctxCancelled : Bool) (ensure : EnsureResult)
    (hasLimiter : Bool) (waitOk : Bool) (rateConsumed : Nat) :
    Option (PipelineResult × Queue × Nat) :=
  if ensure ≠ .ok then some (.tokenError ensure, gate, rateConsumed)
  else
    match Queue.acquire gate ctxCancelled with
    | none => none
    | some (.ok, g2) =>
      if hasLimiter then
        if waitOk then some (.ok, g2, rateConsumed + 1)
        else some (.rateError, (Queue.release g2).getD g2, rateConsumed)
      else some (.ok, g2, rateConsumed)
    | some (r, _) => some (.queueError r, gate, rateConsumed)

/-- C2: the guarded pipeline checks the token, then acquires the gate, then
waits on the rate limiter.  A token-validation failure returns before the gate
is touched or a rate token consumed; every failed entry restores the gate and
the rate counter exactly (in particular a rate-limit failure releases the gate
before propagating); and a successful entry leaves the gate held. -/
theorem pipeline_order_and_release (gate : Queue) (c : Bool) (e : EnsureResult)
    (h w : Bool) (n : Nat) (res : PipelineResult) (g2 : Queue) (n2 : Nat) :
    (e ≠ .ok → acquireAndRateLimit gate c e h w n = some (.tokenError e, gate, n)) ∧
    (acquireAndRateLimit gate c e h w n = some (res, g2, n2) → res ≠ .ok →
      g2 = gate ∧ n2 = n) ∧
    (acquireAndRateLimit gate c e h w n = some (res, g2, n2) → res = .ok →
      g2.semCount = 1) := by
  refine ⟨?_, ?_, ?_⟩
  · intro he
    unfold acquireAndRateLimit
    simp [he]
  · intro hrun hres
    unfold acquireAndRateLimit at hrun
    by_cases he : e = .ok
    · simp only [he, ne_eq, not_true_eq_false, if_false] at hrun
      match hacq : Queue.acquire gate c with
      | none => rw [hacq] at hrun; exact absurd hrun (by simp)
      | some (.ok, g3) =>
        rw [hacq] at hrun
        rcases Queue.acquire_ok_iff.mp hacq with ⟨_, _, hs, hg3⟩
        by_cases hh : h = true
        · by_cases hw : w = true
          · simp only [hh, hw, if_true] at hrun
            simp only [Option.some.injEq, Prod.mk.injEq] at hrun
            exact absurd hrun.1.symm hres
          · simp only [hh, Bool.not_eq_true] at hw
            simp only [hh, hw, if_true, Bool.false_eq_true, if_false] at hrun
            simp only [Option.some.injEq, Prod.mk.injEq] at hrun
            refine ⟨?_, hrun.2.2.symm⟩
            rw [← hrun.2.1, hg3]
            unfold Queue.release
            simp only [Option.getD]
            cases gate with
            | mk sc cl =>
              simp only at hs
              subst hs
              rfl
        · simp only [Bool.not_eq_true] at hh
          simp only [hh, Bool.false_eq_true, if_false] at hrun
          simp only [Option.some.injEq, Prod.mk.injEq] at hrun
          exact absurd hrun.1.symm hres
      | some (.ctxErr, g3) =>
        rw [hacq] at hrun
        simp only [Option.some.injEq, Prod.mk.injEq] at hrun
        exact ⟨hrun.2.1.symm, hrun.2.2.symm⟩
      | some (.closedErr, g3) =>
        rw [hacq] at hrun
        simp only [Option.some.injEq, Prod.mk.injEq] at hrun
        exact ⟨hrun.2.1.symm, hrun.2.2.symm⟩
    · simp only [he, ne_eq, not_false_eq_true, if_true] at hrun
      simp only [Option.some.injEq, Prod.mk.injEq] at hrun
      exact ⟨hrun.2.1.symm, hrun.2.2.symm⟩
  · intro hrun hres
    subst hres
    unfold acquireAndRateLimit at hrun
    by_cases he : e = .ok
    · simp only [he, ne_eq, not_true_eq_false, if_false] at hrun
      match hacq : Queue.acquire gate c with
      | none => rw [hacq] at hrun; exact absurd hrun (by simp)
      | some (.ok, g3) =>
        rw [hacq] at hrun
        rcases Queue.acquire_ok_iff.mp hacq with ⟨_, _, _, hg3⟩
        by_cases hh : h = true
        · by_cases hw : w = true
          · simp only [hh, hw, if_true, Option.some.injEq, Prod.mk.injEq] at hrun
            rw [← hrun.2.1, hg3]
          · simp only [Bool.not_eq_true] at hw
            simp only [hh, hw, if_true, Bool.false_eq_true, if_false,
              Option.some.injEq, Prod.mk.injEq] at hrun
            exact absurd hrun.1 (by simp)
        · simp only [Bool.not_eq_true] at hh
          simp only [hh, Bool.false_eq_true, if_false,
            Option.some.injEq, Prod.mk.injEq] at hrun
          rw [← hrun.2.1, hg3]
      | some (.ctxErr, g3) =>
        rw [hacq] at hrun
        simp only [Option.some.injEq, Prod.mk.injEq] at hrun
        exact absurd hrun.1 (by simp)
      | some (.closedErr, g3) =>
        rw [hacq] at hrun
        simp only [Option.some.injEq, Prod.mk.injEq] at hrun
        exact absurd hrun.1 (by simp)
    · simp only [he, ne_eq, not_false_eq_true, if_true,
        Option.some.injEq, Prod.mk.injEq] at hrun
      exact absurd hrun.1 (by simp [he])

/-- Witness for `pipeline_order_and_release`: a failed token validation leaves
a free gate and the rate counter untouched; a cancelled rate-limit wait on a
free gate releases the gate again. -/
theorem pipeline_order_and_release_witness :
    acquireAndRateLimit Queue.new false .noCredentials true true 0
      = some (.tokenError .noCredentials, Queue.new, 0) ∧
    (Queue.new = Queue.new ∧ (0 : Nat) = 0) := by
  constructor
  · exact (pipeline_order_and_release Queue.new false .noCredentials true true 0
      .rateError Queue.new 0).1 (by decide)
  · exact (pipeline_order_and_release Queue.new false .ok true false 0
      .rateError Queue.new 0).2.1 (by decide) (by decide)

/-! ## Exactly-once refresh under concurrency

Interleaving semantics of `ensureValidToken`'s double-checked locking, for the
scenario of the spec: auto-refresh enabled, credentials stored, the refresh
succeeds, and the token does not expire again during the scenario.  `n`
callers each execute the statements of `ensureValidToken`; `fresh` abstracts
`¬ tokenNeedsRefresh` and `refreshCount` counts Authenticator invocations. -/

/-- Program counter of one caller inside `ensureValidToken`. -/
inductive RefreshPC where
  | start     -- about to run the fast-path check
  | wantLock  -- fast path saw a stale token; waiting on refreshMu
  | haveLock  -- holding refreshMu; about to double-check
  | doRefresh -- double-check saw a stale token; about to call the Authenticator
  | unlock    -- refresh done or skipped; about to release refreshMu
  | done      -- returned success
  deriving DecidableEq, Repr

/-- Whether a caller currently holds `refreshMu`. -/
def inCS : RefreshPC → Bool
  | .haveLock => true
  | .doRefresh => true
  | .unlock => true
  | _ => false

/-- Global state: token freshness, the refresh mutex, the number of
Authenticator calls performed so far, and every caller's program counter. -/
structure RefreshSystem (n : Nat) where
  fresh : Bool
  lockHeld : Bool
  refreshCount : Nat
  pc : Fin n → RefreshPC

/-- Initial state of the scenario: the token needs refresh, nobody holds the
refresh lock, no Authenticator call has happened, all callers are at the
fast-path check. -/
def refreshInit (n : Nat) : RefreshSystem n :=
  { fresh := false, lockHeld := false, refreshCount := 0, pc := fun _ => .start }

/-- One interleaved step of some caller `i`. -/
inductive RStep (n : Nat) : RefreshSystem n → RefreshSystem n → Prop where
  | fastFresh (s : RefreshSystem n) (i : Fin n) :
      s.pc i = .start → s.fresh = true →
      RStep n s { s with pc := Function.update s.pc i .done }
  | fastStale (s : RefreshSystem n) (i : Fin n) :
      s.pc i = .start → s.fresh = false →
      RStep n s { s with pc := Function.update s.pc i .wantLock }
  | lock (s : RefreshSystem n) (i : Fin n) :
      s.pc i = .wantLock → s.lockHeld = false →
      RStep n s { s with lockHeld := true, pc := Function.update s.pc i .haveLock }
  | recheckFresh (s : RefreshSystem n) (i : Fin n) :
      s.pc i = .haveLock → s.fresh = true →
      RStep n s { s with pc := Function.update s.pc i .unlock }
  | recheckStale (s : RefreshSystem n) (i : Fin n) :
      s.pc i = .haveLock → s.fresh = false →
      RStep n s { s with pc := Function.update s.pc i .doRefresh }
  | refresh (s : RefreshSystem n) (i : Fin n) :
      s.pc i = .doRefresh →
      RStep n s { s with fresh := true, refreshCount := s.refreshCount + 1,
                         pc := Function.update s.pc i .unlock }
  | unlock (s : RefreshSystem n) (i : Fin n) :
      s.pc i = .unlock →
      RStep n s { s with lockHeld := false, pc := Function.update s.pc i .done }

/-- States reachable from the initial state of the scenario. -/
inductive RReachable (n : Nat) : RefreshSystem n → Prop where
  | init : RReachable n (refreshInit n)
  | step (s s' : RefreshSystem n) : RReachable n s → RStep n s s' → RReachable n s'

/-- The inductive invariant of the double-checked refresh. -/
structure RefreshInv {n : Nat} (s : RefreshSystem n) : Prop where
  count_le : s.refreshCount ≤ 1
  fresh_iff : s.fresh = true ↔ s.refreshCount = 1
  cs_lock : ∀ i, inCS (s.pc i) = true → s.lockHeld = true
  cs_unique : ∀ i j, inCS (s.pc i) = true → inCS (s.pc j) = true → i = j
  doRefresh_stale : ∀ i, s.pc i = .doRefresh → s.fresh = false
  unlock_count : ∀ i, s.pc i = .unlock → s.refreshCount = 1
  done_count : ∀ i, s.pc i = .done → s.refreshCount = 1

theorem refreshInv_init (n : Nat) : RefreshInv (refreshInit n) := by
  constructor <;> simp [refreshInit, inCS]

theorem update_pc_cases {n : Nat} {pc : Fin n → RefreshPC} {i j : Fin n}
    {v w : RefreshPC} (h : Function.update pc i v j = w) :
    (j = i ∧ v = w) ∨ (j ≠ i ∧ pc j = w) := by
  rcases eq_or_ne j i with hji | hji
  · subst hji
    rw [Function.update_same] at h
    exact Or.inl ⟨rfl, h⟩
  · rw [Function.update_noteq hji] at h
    exact Or.inr ⟨hji, h⟩

theorem inCS_update_cases {n : Nat} {pc : Fin n → RefreshPC} {i j : Fin n}
    {v : RefreshPC} (h : inCS (Function.update pc i v j) = true) :
    (j = i ∧ inCS v = true) ∨ (j ≠ i ∧ inCS (pc j) = true) := by
  rcases eq_or_ne j i with hji | hji
  · subst hji
    rw [Function.update_same] at h
    exact Or.inl ⟨rfl, h⟩
  · rw [Function.update_noteq hji] at h
    exact Or.inr ⟨hji, h⟩

theorem refreshInv_step {n : Nat} {s s' : RefreshSystem n}
    (h : RStep n s s') (hi : RefreshInv s) : RefreshInv s' := by
  cases h with
  | fastFresh i hpc hfresh =>
    refine ⟨hi.count_le, hi.fresh_iff, ?_, ?_, ?_, ?_, ?_⟩
    · intro j hj
      rcases inCS_update_cases hj with ⟨_, hv⟩ | ⟨_, hj'⟩
      · exact absurd hv (by simp [inCS])
      · exact hi.cs_lock j hj'
    · intro j k hj hk
      rcases inCS_update_cases hj with ⟨_, hv⟩ | ⟨_, hj'⟩
      · exact absurd hv (by simp [inCS])
      · rcases inCS_update_cases hk with ⟨_, hv⟩ | ⟨_, hk'⟩
        · exact absurd hv (by simp [inCS])
        · exact hi.cs_unique j k hj' hk'
    · intro j hj
      rcases update_pc_cases hj with ⟨_, hv⟩ | ⟨_, hj'⟩
      · exact absurd hv (by simp)
      · exact absurd hfresh (by simp [hi.doRefresh_stale j hj'])
    · intro j hj
      rcases update_pc_cases hj with ⟨_, hv⟩ | ⟨_, hj'⟩
      · exact absurd hv (by simp)
      · exact hi.unlock_count j hj'
    · intro j hj
      rcases update_pc_cases hj with ⟨_, _⟩ | ⟨_, hj'⟩
      · exact hi.fresh_iff.mp hfresh
      · exact hi.done_count j hj'
  | fastStale i hpc hfresh =>
    refine ⟨hi.count_le, hi.fresh_iff, ?_, ?_, ?_, ?_, ?_⟩
    · intro j hj
      rcases inCS_update_cases hj with ⟨_, hv⟩ | ⟨_, hj'⟩
      · exact absurd hv (by simp [inCS])
      · exact hi.cs_lock j hj'
    · intro j k hj hk
      rcases inCS_update_cases hj with ⟨_, hv⟩ | ⟨_, hj'⟩
      · exact absurd hv (by simp [inCS])
      · rcases inCS_update_cases hk with ⟨_, hv⟩ | ⟨_, hk'⟩
        · exact absurd hv (by simp [inCS])
        · exact hi.cs_unique j k hj' hk'
    · intro j _
      exact hfresh
    · intro j hj
      rcases update_pc_cases hj with ⟨_, hv⟩ | ⟨_, hj'⟩
      · exact absurd hv (by simp)
      · exact hi.unlock_count j hj'
    · intro j hj
      rcases update_pc_cases hj with ⟨_, hv⟩ | ⟨_, hj'⟩
      · exact absurd hv (by simp)
      · exact hi.done_count j hj'
  | lock i hpc hlock =>
    refine ⟨hi.count_le, hi.fresh_iff, ?_, ?_, ?_, ?_, ?_⟩
    · intro j _
      rfl
    · intro j k hj hk
      rcases inCS_update_cases hj with ⟨hji, _⟩ | ⟨_, hj'⟩
      · rcases inCS_update_cases hk with ⟨hki, _⟩ | ⟨_, hk'⟩
        · rw [hji, hki]
        · exact absurd (hi.cs_lock k hk') (by simp [hlock])
      · exact absurd (hi.cs_lock j hj') (by simp [hlock])
    · intro j hj
      rcases update_pc_cases hj with ⟨_, hv⟩ | ⟨_, hj'⟩
      · exact absurd hv (by simp)
      · exact absurd (hi.cs_lock j (by simp [hj', inCS])) (by simp [hlock])
    · intro j hj
      rcases update_pc_cases hj with ⟨_, hv⟩ | ⟨_, hj'⟩
      · exact absurd hv (by simp)
      · exact hi.unlock_count j hj'
    · intro j hj
      rcases update_pc_cases hj with ⟨_, hv⟩ | ⟨_, hj'⟩
      · exact absurd hv (by simp)
      · exact hi.done_count j hj'
  | recheckFresh i hpc hfresh =>
    refine ⟨hi.count_le, hi.fresh_iff, ?_, ?_, ?_, ?_, ?_⟩
    · intro j hj
      rcases inCS_update_cases hj with ⟨_, _⟩ | ⟨_, hj'⟩
      · exact hi.cs_lock i (by simp [hpc, inCS])
      · exact hi.cs_lock j hj'
    · intro j k hj hk
      have hj2 : inCS (s.pc j) = true := by
        rcases inCS_update_cases hj with ⟨hji, _⟩ | ⟨_, hj'⟩
        · rw [hji, hpc]; rfl
        · exact hj'
      have hk2 : inCS (s.pc k) = true := by
        rcases inCS_update_cases hk with ⟨hki, _⟩ | ⟨_, hk'⟩
        · rw [hki, hpc]; rfl
        · exact hk'
      exact hi.cs_unique j k hj2 hk2
    · intro j hj
      rcases update_pc_cases hj with ⟨_, hv⟩ | ⟨_, hj'⟩
      · exact absurd hv (by simp)
      · exact absurd hfresh (by simp [hi.doRefresh_stale j hj'])
    · intro j hj
      rcases update_pc_cases hj with ⟨_, _⟩ | ⟨_, hj'⟩
      · exact hi.fresh_iff.mp hfresh
      · exact hi.unlock_count j hj'
    · intro j hj
      rcases update_pc_cases hj with ⟨_, hv⟩ | ⟨_, hj'⟩
      · exact absurd hv (by simp)
      · exact hi.done_count j hj'
  | recheckStale i hpc hfresh =>
    refine ⟨hi.count_le, hi.fresh_iff, ?_, ?_, ?_, ?_, ?_⟩
    · intro j hj
      rcases inCS_update_cases hj with ⟨_, _⟩ | ⟨_, hj'⟩
      · exact hi.cs_lock i (by simp [hpc, inCS])
      · exact hi.cs_lock j hj'
    · intro j k hj hk
      have hj2 : inCS (s.pc j) = true := by
        rcases inCS_update_cases hj with ⟨hji, _⟩ | ⟨_, hj'⟩
        · rw [hji, hpc]; rfl
        · exact hj'
      have hk2 : inCS (s.pc k) = true := by
        rcases inCS_update_cases hk with ⟨hki, _⟩ | ⟨_, hk'⟩
        · rw [hki, hpc]; rfl
        · exact hk'
      exact hi.cs_unique j k hj2 hk2
    · intro j _
      exact hfresh
    · intro j hj
      rcases update_pc_cases hj with ⟨_, hv⟩ | ⟨_, hj'⟩
      · exact absurd hv (by simp)
      · exact hi.unlock_count j hj'
    · intro j hj
      rcases update_pc_cases hj with ⟨_, hv⟩ | ⟨_, hj'⟩
      · exact absurd hv (by simp)
      · exact hi.done_count j hj'
  | refresh i hpc =>
    have hstale : s.fresh = false := hi.doRefresh_stale i hpc
    have hcount0 : s.refreshCount = 0 := by
      have h1 := hi.count_le
      have h2 : s.refreshCount ≠ 1 := fun hc =>
        by simp [hi.fresh_iff.mpr hc] at hstale
      omega
    refine ⟨?_, ?_, ?_, ?_, ?_, ?_, ?_⟩
    · show s.refreshCount + 1 ≤ 1
      omega
    · show true = true ↔ s.refreshCount + 1 = 1
      simp [hcount0]
    · intro j hj
      rcases inCS_update_cases hj with ⟨_, _⟩ | ⟨_, hj'⟩
      · exact hi.cs_lock i (by simp [hpc, inCS])
      · exact hi.cs_lock j hj'
    · intro j k hj hk
      have hj2 : inCS (s.pc j) = true := by
        rcases inCS_update_cases hj with ⟨hji, _⟩ | ⟨_, hj'⟩
        · rw [hji, hpc]; rfl
        · exact hj'
      have hk2 : inCS (s.pc k) = true := by
        rcases inCS_update_cases hk with ⟨hki, _⟩ | ⟨_, hk'⟩
        · rw [hki, hpc]; rfl
        · exact hk'
      exact hi.cs_unique j k hj2 hk2
    · intro j hj
      rcases update_pc_cases hj with ⟨_, hv⟩ | ⟨hji, hj'⟩
      · exact absurd hv (by simp)
      · exact absurd (hi.cs_unique j i (by simp [hj', inCS]) (by simp [hpc, inCS])) hji
    · intro j _
      show s.refreshCount + 1 = 1
      omega
    · intro j hj
      rcases update_pc_cases hj with ⟨_, hv⟩ | ⟨_, hj'⟩
      · exact absurd hv (by simp)
      · exact absurd (hi.done_count j hj') (by omega)
  | unlock i hpc =>
    have hcount1 : s.refreshCount = 1 := hi.unlock_count i hpc
    refine ⟨hi.count_le, hi.fresh_iff, ?_, ?_, ?_, ?_, ?_⟩
    · intro j hj
      rcases inCS_update_cases hj with ⟨_, hv⟩ | ⟨hji, hj'⟩
      · exact absurd hv (by simp [inCS])
      · exact absurd (hi.cs_unique j i hj' (by simp [hpc, inCS])) hji
    · intro j k hj hk
      rcases inCS_update_cases hj with ⟨_, hv⟩ | ⟨hji, hj'⟩
      · exact absurd hv (by simp [inCS])
      · exact absurd (hi.cs_unique j i hj' (by simp [hpc, inCS])) hji
    · intro j hj
      rcases update_pc_cases hj with ⟨_, hv⟩ | ⟨hji, hj'⟩
      · exact absurd hv (by simp)
      · exact absurd (hi.cs_unique j i (by simp [hj', inCS]) (by simp [hpc, inCS])) hji
    · intro j hj
      rcases update_pc_cases hj with ⟨_, hv⟩ | ⟨_, hj'⟩
      · exact absurd hv (by simp)
      · exact hi.unlock_count j hj'
    · intro j hj
      rcases update_pc_cases hj with ⟨_, _⟩ | ⟨_, hj'⟩
      · exact hcount1
      · exact hi.done_count j hj'

theorem refreshInv_reachable {n : Nat} {s : RefreshSystem n}
    (h : RReachable n s) : RefreshInv s := by
  induction h with
  | init => exact refreshInv_init n
  | step s s' _ hstep ih => exact refreshInv_step hstep ih

/-- A concrete two-caller trace in which caller 0 runs `ensureValidToken` to
completion: fast check (stale), lock, double-check (stale), refresh, unlock. -/
def rs0 : RefreshSystem 2 := refreshInit 2

def rs1 : RefreshSystem 2 := { rs0 with pc := Function.update rs0.pc 0 .wantLock }

def rs2 : RefreshSystem 2 :=
  { rs1 with lockHeld := true, pc := Function.update rs1.pc 0 .haveLock }

def rs3 : RefreshSystem 2 := { rs2 with pc := Function.update rs2.pc 0 .doRefresh }

def rs4 : RefreshSystem 2 :=
  { rs3 with fresh := true, refreshCount := rs3.refreshCount + 1,
             pc := Function.update rs3.pc 0 .unlock }

def rs5 : RefreshSystem 2 :=
  { rs4 with lockHeld := false, pc := Function.update rs4.pc 0 .done }

theorem rs5_reachable : RReachable 2 rs5 :=
  .step rs4 rs5
    (.step rs3 rs4
      (.step rs2 rs3
        (.step rs1 rs2
          (.step rs0 rs1 .init
            (.fastStale rs0 0 (by decide) (by decide)))
          (.lock rs1 0 (by decide) (by decide)))
        (.recheckStale rs2 0 (by decide) (by decide)))
      (.refresh rs3 0 (by decide)))
    (.unlock rs4 0 (by decide))

/-- C3: in every reachable state of the interleaved refresh scenario, the
Authenticator has been called at most once; any caller that has returned saw
exactly one completed refresh (contending callers re-check under the refresh
lock and return success without a second refresh); and at most one caller is
ever inside the refresh lock. -/
theorem refresh_exactly_once (n : Nat) (s : RefreshSystem n) (i j : Fin n)
    (h : RReachable n s) :
    s.refreshCount ≤ 1 ∧
    (s.pc i = .done → s.refreshCount = 1) ∧
    (inCS (s.pc i) = true → inCS (s.pc j) = true → i = j) := by
  have hinv := refreshInv_reachable h
  exact ⟨hinv.count_le, hinv.done_count i, hinv.cs_unique i j⟩

/-- Witness for `refresh_exactly_once`: at the end of the concrete trace
`rs5`, caller 0 is done and exactly one Authenticator call has occurred. -/
theorem refresh_exactly_once_witness :
    rs5.refreshCount ≤ 1 ∧ rs5.refreshCount = 1 := by
  have h := refresh_exactly_once 2 rs5 0 0 rs5_reachable
  exact ⟨h.1, h.2.1 (by decide)⟩

end Remedy
